import Mathlib

/-!
Verification of the SnapChronicles event store + vector index subsystem
(`src/database/db_handler.py` and `src/database/vector_handler.py`).

The Python code is shallowly embedded as follows.

* The SQLite `events` and `vectors` tables become Lean lists kept in rowid
  (insertion) order, together with the next AUTOINCREMENT ids.
* The FAISS flat L2 index becomes a dimension plus an append-only list of
  vectors.  The FAISS Python wrapper's assertions (`assert d == self.d` on
  `add`/`search`, `assert k > 0` on `search`) are modelled as `Except.error`.
* `SentenceTransformer.encode` (the embedding provider, an external
  collaborator) becomes an abstract `String → Except String (List Int)`;
  an `Except.error` models the provider raising.  Vector components are
  modelled as integers: no claim depends on real-number arithmetic, only on
  the ordering of distances.
* The `llm.query_expander.expand_query` collaborator (absent from the
  repository, imported inside a `try`) becomes an abstract
  `String → Except String (List String)`.
* A Python function that may raise returns `Except String _`; where the
  Python code mutates state before raising, the partially mutated state is
  returned alongside the error.
-/

/-- Python's `str.strip()`: drop leading and trailing whitespace.  (Defined
over the character list by structural recursion so that concrete runs reduce
definitionally; `String.trim` is extensionally the same but is defined by
well-founded recursion on byte positions.) -/
def pyStrip (s : String) : String :=
  ⟨((s.data.dropWhile Char.isWhitespace).reverse.dropWhile Char.isWhitespace).reverse⟩

/-- Insert an element into a sorted list, in front of the first element it
compares `le` to.  Helper for `stableSort`. -/
def insSorted (le : α → α → Bool) (a : α) : List α → List α
  | [] => [a]
  | b :: l => if le a b then a :: b :: l else b :: insSorted le a l

/-- Stable insertion sort.  Python's `sorted` and SQLite's `ORDER BY` are
stable sorts by a key, and a stable sort is uniquely determined by the
comparator, so this is exactly their result.  (Defined by structural
recursion so that concrete runs reduce definitionally.) -/
def stableSort (le : α → α → Bool) (l : List α) : List α := l.foldr (insSorted le) []

/-- Row of the `events` table (`db_handler.init_db`). -/
structure Event where
  id : Nat
  timestamp : Int
  source_type : String
  content : Option String
  vectorized : Bool
  media_path : Option String
deriving Repr, DecidableEq

/-- Row of the `vectors` table (`vector_handler._init_vector_table`).
The pickled blob is modelled by the vector itself. -/
structure VectorRow where
  id : Nat
  event_id : Nat
  vector : List Int
  vector_dimension : Nat
deriving Repr, DecidableEq

/-- The SQLite database `snap.db`: both tables in rowid order, plus the
next AUTOINCREMENT id of each table. -/
structure DBState where
  events : List Event
  nextEventId : Nat
  vectors : List VectorRow
  nextVectorId : Nat
deriving Repr, DecidableEq

/-- A FAISS `IndexFlatL2`: its dimension `d` and its append-only vector
storage (`ntotal = vecs.length`). -/
structure FaissIndex where
  dim : Nat
  vecs : List (List Int)
deriving Repr, DecidableEq

/-- Durable system state: the database plus the contents of the
`vectors.faiss` snapshot file (`none` when the file does not exist). -/
structure SysState where
  db : DBState
  snapshot : Option FaissIndex
deriving Repr, DecidableEq

/-- The embedding provider (`SentenceTransformer`, an external collaborator):
`encode` turns a text into a vector and may raise. -/
structure Provider where
  encode : String → Except String (List Int)

/-- `faiss.Index.add` for one vector: the Python wrapper asserts that the
vector's dimension equals the index dimension, then appends. -/
def FaissIndex.add (idx : FaissIndex) (v : List Int) : Except String FaissIndex :=
  if v.length = idx.dim then Except.ok { idx with vecs := idx.vecs ++ [v] }
  else Except.error "faiss add: vector dimension does not match index dimension"

/-- `faiss.Index.add` for a batch of vectors (used by the index rebuild). -/
def FaissIndex.addBatch (idx : FaissIndex) (vs : List (List Int)) : Except String FaissIndex :=
  if vs.all (fun v => v.length == idx.dim) then Except.ok { idx with vecs := idx.vecs ++ vs }
  else Except.error "faiss add: vector dimension does not match index dimension"

/-- Squared L2 distance, the metric of `IndexFlatL2`. -/
def l2sq (a b : List Int) : Int :=
  ((a.zip b).map (fun pr => (pr.1 - pr.2) * (pr.1 - pr.2))).sum

/-- `faiss.Index.search` on a flat L2 index: returns the `k` nearest stored
vectors as `(distance, position)` pairs, ascending by distance.  The Python
wrapper asserts `k > 0` and `d == self.d`. -/
def FaissIndex.knnSearch (idx : FaissIndex) (q : List Int) (k : Nat) :
    Except String (List (Int × Nat)) :=
  if k = 0 then Except.error "faiss search: k must be positive"
  else if q.length = idx.dim then
    Except.ok ((stableSort (fun a b => a.1 ≤ b.1)
      ((idx.vecs.enum).map (fun pr => (l2sq q pr.2, pr.1)))).take k)
  else Except.error "faiss search: query dimension does not match index dimension"

/-- `VectorHandler.vectorize_text`: `None`/empty/whitespace-only text is
mapped to `none` without calling the provider; otherwise the stripped text
is encoded (the provider may raise). -/
def vectorize_text (p : Provider) (text : Option String) :
    Except String (Option (List Int)) :=
  match text with
  | none => Except.ok none
  | some t =>
    if pyStrip t == "" then Except.ok none
    else (p.encode (pyStrip t)).map some

/-- The event-flag update of `VectorHandler._mark_event_vectorized`,
restricted to one row. -/
def markOne (event_id : Nat) (e : Event) : Event :=
  if e.id = event_id then { e with vectorized := true } else e

/-- `VectorHandler._mark_event_vectorized`: `UPDATE events SET vectorized =
TRUE WHERE id = ?`. -/
def mark_event_vectorized (s : SysState) (event_id : Nat) : SysState :=
  { s with db := { s.db with events := s.db.events.map (markOne event_id) } }

/-- `VectorHandler.store_vector`: inserts the vector row, then adds the
vector to the FAISS index and persists the snapshot.  If the FAISS add
raises (dimension mismatch), the row is already committed and the snapshot
is not rewritten; the exception is returned with the mutated state. -/
def store_vector (s : SysState) (idx : FaissIndex) (event_id : Nat) (v : List Int) :
    SysState × FaissIndex × Except String Nat :=
  let row : VectorRow :=
    { id := s.db.nextVectorId, event_id := event_id, vector := v,
      vector_dimension := v.length }
  let db1 : DBState :=
    { s.db with vectors := s.db.vectors ++ [row], nextVectorId := s.db.nextVectorId + 1 }
  match idx.add v with
  | Except.error e => ({ s with db := db1 }, idx, Except.error e)
  | Except.ok idx1 => ({ db := db1, snapshot := some idx1 }, idx1, Except.ok row.id)

/-- `VectorHandler.vectorize_and_store`: skip `None`/empty/whitespace text,
embed, store the vector, mark the event vectorized, return the vector id. -/
def vectorize_and_store (p : Provider) (s : SysState) (idx : FaissIndex) (event_id : Nat)
    (text : Option String) : SysState × FaissIndex × Except String (Option Nat) :=
  match text with
  | none => (s, idx, Except.ok none)
  | some t =>
    if pyStrip t == "" then (s, idx, Except.ok none)
    else
      match vectorize_text p (some t) with
      | Except.error e => (s, idx, Except.error e)
      | Except.ok none => (s, idx, Except.ok none)
      | Except.ok (some v) =>
        match store_vector s idx event_id v with
        | (s1, idx1, Except.error e) => (s1, idx1, Except.error e)
        | (s1, idx1, Except.ok vid) =>
          (mark_event_vectorized s1 event_id, idx1, Except.ok (some vid))

/-- Python truthiness test `content and content.strip()` used by
`db_handler.store_event`. -/
def pyTruthyContent : Option String → Bool
  | none => false
  | some c => !(c == "") && !(pyStrip c == "")

/-- `db_handler.store_event`: insert the event row (commit), then, when
`auto_vectorize` and the content is non-empty and the `vectorized` argument
is false, call `vectorize_and_store`; any exception from it is caught. -/
def store_event (p : Provider) (s : SysState) (idx : FaissIndex) (timestamp : Int)
    (source_type : String) (content : Option String) (vectorized : Bool)
    (media_path : Option String) (auto_vectorize : Bool) : SysState × FaissIndex × Nat :=
  let ev : Event :=
    { id := s.db.nextEventId, timestamp := timestamp, source_type := source_type,
      content := content, vectorized := vectorized, media_path := media_path }
  let db1 : DBState :=
    { s.db with
      events := s.db.events ++ [ev]
      nextEventId := s.db.nextEventId + 1 }
  let s1 : SysState := { s with db := db1 }
  if auto_vectorize && pyTruthyContent content && !vectorized then
    let r := vectorize_and_store p s1 idx ev.id content
    (r.1, r.2.1, ev.id)
  else
    (s1, idx, ev.id)

/-- The SELECT of `db_handler.vectorize_existing_events`: events whose
`content` is non-NULL and non-empty and (unless forced) not yet vectorized,
as `(id, content)` pairs in rowid order. -/
def selectToVectorize (db : DBState) (force : Bool) : List (Nat × String) :=
  (db.events.filter (fun e =>
    match e.content with
    | none => false
    | some c => !(c == "") && (force || !e.vectorized))).map
    (fun e => (e.id, e.content.getD ""))

/-- One iteration of the loop of `db_handler.vectorize_existing_events`:
exceptions are caught, a returned vector id counts as a success. -/
def sweepStep (p : Provider) (acc : SysState × FaissIndex × Nat) (item : Nat × String) :
    SysState × FaissIndex × Nat :=
  match vectorize_and_store p acc.1 acc.2.1 item.1 (some item.2) with
  | (s1, idx1, Except.ok (some _)) => (s1, idx1, acc.2.2 + 1)
  | (s1, idx1, Except.ok none) => (s1, idx1, acc.2.2)
  | (s1, idx1, Except.error _) => (s1, idx1, acc.2.2)

/-- `db_handler.vectorize_existing_events` (the backlog sweep): fetch the
selection once, then process each selected event, counting successes and
continuing past failures. -/
def vectorize_existing_events (p : Provider) (s : SysState) (idx : FaissIndex)
    (force_revectorize : Bool) : SysState × FaissIndex × Nat :=
  (selectToVectorize s.db force_revectorize).foldl (sweepStep p) (s, idx, 0)

/-- `VectorHandler._rebuild_index_from_db`: read all vector rows
`ORDER BY id` and, when there are any, batch-add their vectors to the
index. -/
def rebuild_index_from_db (db : DBState) (idx : FaissIndex) : Except String FaissIndex :=
  let results := stableSort (fun a b => a.id ≤ b.id) db.vectors
  if results.isEmpty then Except.ok idx
  else idx.addBatch (results.map (fun r => r.vector))

/-- `VectorHandler._load_or_create_index`: probe the provider's dimension by
encoding `"sample text"`; if the snapshot file exists, load it as the index
(no dimension or count check); otherwise create an empty index of the probed
dimension and rebuild it from the `vectors` table.  Returns the probed
dimension together with the resulting index. -/
def load_or_create_index (p : Provider) (s : SysState) : Except String (Nat × FaissIndex) :=
  match p.encode "sample text" with
  | Except.error e => Except.error e
  | Except.ok sample =>
    let dimension := sample.length
    match s.snapshot with
    | some idx => Except.ok (dimension, idx)
    | none =>
      match rebuild_index_from_db s.db { dim := dimension, vecs := [] } with
      | Except.error e => Except.error e
      | Except.ok idx => Except.ok (dimension, idx)

/-- One row of the `vectors JOIN events` query in
`VectorHandler.search_similar`. -/
structure JoinRow where
  event_id : Nat
  timestamp : Int
  source_type : String
  content : Option String
  media_path : Option String
  vector_id : Nat
deriving Repr, DecidableEq

/-- The `SELECT ... FROM vectors v JOIN events e ON v.event_id = e.id ORDER
BY v.id` of `VectorHandler.search_similar`. -/
def vector_events (db : DBState) : List JoinRow :=
  (stableSort (fun a b => a.id ≤ b.id) db.vectors).flatMap (fun r =>
    (db.events.filter (fun e => e.id == r.event_id)).map (fun e =>
      { event_id := r.event_id
        timestamp := e.timestamp
        source_type := e.source_type
        content := e.content
        media_path := e.media_path
        vector_id := r.id }))

/-- One search result dict of `VectorHandler.search_similar`. -/
structure Hit where
  event_id : Nat
  timestamp : Int
  source_type : String
  content : Option String
  media_path : Option String
  vector_id : Nat
  similarity_score : Int
  rank : Nat
deriving Repr, DecidableEq

/-- `VectorHandler.search_similar`: empty/whitespace query short-circuits to
`[]`; otherwise embed the query, run the FAISS k-NN lookup with
`k = min top_k ntotal`, and resolve each returned position against the
`vectors JOIN events` rows (positions out of range are skipped; `rank`
counts all k-NN answers, kept or not). -/
def search_similar (p : Provider) (s : SysState) (idx : FaissIndex) (query_text : String)
    (top_k : Nat) : Except String (List Hit) :=
  if pyStrip query_text == "" then Except.ok []
  else
    match vectorize_text p (some query_text) with
    | Except.error e => Except.error e
    | Except.ok none => Except.ok []
    | Except.ok (some qv) =>
      match idx.knnSearch qv (min top_k idx.vecs.length) with
      | Except.error e => Except.error e
      | Except.ok pairs =>
        let ve := vector_events s.db
        Except.ok ((pairs.enum).filterMap (fun ipr =>
          match ve[ipr.2.2]? with
          | none => none
          | some ed => some
              { event_id := ed.event_id
                timestamp := ed.timestamp
                source_type := ed.source_type
                content := ed.content
                media_path := ed.media_path
                vector_id := ed.vector_id
                similarity_score := ipr.2.1
                rank := ipr.1 + 1 }))

/-- The query set of `db_handler.search_similar_events`: the original query,
extended by the expander's phrasings; a raising expander contributes
nothing. -/
def queriesOf (expander : String → Except String (List String)) (query_text : String) :
    List String :=
  match expander query_text with
  | Except.ok extra => query_text :: extra
  | Except.error _ => [query_text]

/-- The per-hit aggregation step of `db_handler.search_similar_events`:
the Python dict keyed by `event_id` is an association list; a new key is
appended, an existing key is overwritten in place when the new hit's
distance is strictly smaller. -/
def aggStep (agg : List (Nat × Hit)) (res : Hit) : List (Nat × Hit) :=
  match agg.find? (fun pr => pr.1 == res.event_id) with
  | none => agg ++ [(res.event_id, res)]
  | some pr =>
    if res.similarity_score < pr.2.similarity_score then
      agg.map (fun q => if q.1 == res.event_id then (q.1, res) else q)
    else agg

/-- The hits one query contributes in `db_handler.search_similar_events`:
a raising `search_similar` is caught and contributes nothing. -/
def hitsOf (p : Provider) (s : SysState) (idx : FaissIndex) (top_k : Nat) (q : String) :
    List Hit :=
  match search_similar p s idx q top_k with
  | Except.ok rs => rs
  | Except.error _ => []

/-- All hits over which `db_handler.search_similar_events` aggregates: the
hits of the original query and of every expanded query. -/
def fusionHits (p : Provider) (s : SysState) (idx : FaissIndex)
    (expander : String → Except String (List String)) (query_text : String) (top_k : Nat) :
    List Hit :=
  (queriesOf expander query_text).flatMap (hitsOf p s idx top_k)

/-- `db_handler.search_similar_events`: build the query set, search each
query (failures caught), aggregate by `event_id` keeping the smallest
distance, sort ascending by distance (Python's stable sort) and truncate to
`top_k`. -/
def search_similar_events (p : Provider) (s : SysState) (idx : FaissIndex)
    (expander : String → Except String (List String)) (query_text : String) (top_k : Nat) :
    List Hit :=
  let agg := (queriesOf expander query_text).foldl
    (fun agg q => (hitsOf p s idx top_k q).foldl aggStep agg) []
  (stableSort (fun a b => a.similarity_score ≤ b.similarity_score) (agg.map Prod.snd)).take top_k

/-- Number of `vectors` rows referencing a given event. -/
def vcount (db : DBState) (event_id : Nat) : Nat :=
  db.vectors.countP (fun r => r.event_id == event_id)

/-- Store-level invariant: every event has at most one vector row. -/
def atMostOneVector (db : DBState) : Prop := ∀ n, vcount db n ≤ 1

/-- Store-level invariant: an event referenced by a vector row carries the
`vectorized` flag. -/
def rowImpliesFlag (db : DBState) : Prop :=
  ∀ r, r ∈ db.vectors → ∀ e, e ∈ db.events → e.id = r.event_id → e.vectorized = true

/-- The one-vector-per-event invariant together with the flag link. -/
def VInv (db : DBState) : Prop := atMostOneVector db ∧ rowImpliesFlag db

/-- Well-formedness of SQLite AUTOINCREMENT ids: event ids are distinct and
below the next id, and vector rows reference existing-range ids. -/
def WFIds (db : DBState) : Prop :=
  (db.events.map (fun e => e.id)).Nodup ∧
  (∀ e, e ∈ db.events → e.id < db.nextEventId) ∧
  (∀ r, r ∈ db.vectors → r.event_id < db.nextEventId)

/-- The provider's embeddings all have dimension `d` (true of a sentence
transformer, whose output width is fixed by the model). -/
def DimOk (p : Provider) (d : Nat) : Prop :=
  ∀ t v, p.encode t = Except.ok v → v.length = d

/-- The provider never raises. -/
def ProviderWorks (p : Provider) : Prop :=
  ∀ t, ∃ v, p.encode t = Except.ok v

/-! ### Concrete fixtures for witnesses and counterexamples -/

/-- A working constant provider: every text embeds to the vector `[0]`
(dimension 1), and no call ever raises. -/
def pEx : Provider := ⟨fun _ => Except.ok [0]⟩

/-- An already-vectorized event. -/
def evEx : Event := ⟨1, 10, "ocr", some "hello", true, none⟩

/-- A system state holding `evEx` together with its vector row and a
consistent one-vector snapshot. -/
def sEx : SysState := ⟨⟨[evEx], 2, [⟨1, 1, [0], 1⟩], 2⟩, some ⟨1, [[0]]⟩⟩

/-- The in-memory index matching `sEx`. -/
def idxEx : FaissIndex := ⟨1, [[0]]⟩

/-- Helper: the state after the event insert inside `store_event`. -/
def insertEventState (s : SysState) (ev : Event) : SysState :=
  { s with db := { s.db with events := s.db.events ++ [ev], nextEventId := s.db.nextEventId + 1 } }

/-- Invariant of the aggregation dict of `search_similar_events` after the
hits `processed` have been folded in: keys are distinct, each entry is a
processed hit carrying its key as `event_id` whose distance is minimal among
processed hits with that `event_id`, and every processed hit's `event_id`
has an entry. -/
def AggOk (processed : List Hit) (agg : List (Nat × Hit)) : Prop :=
  (agg.map Prod.fst).Nodup ∧
  (∀ pr, pr ∈ agg → pr.2.event_id = pr.1 ∧ pr.2 ∈ processed ∧
    (∀ h, h ∈ processed → h.event_id = pr.1 →
      pr.2.similarity_score ≤ h.similarity_score)) ∧
  (∀ h, h ∈ processed → ∃ pr, pr ∈ agg ∧ pr.1 = h.event_id)

/-- The flag update a whole sweep performs on one event: set `vectorized`
when some selected pair carries this event's id and non-blank content. -/
def sweepFlag (todo : List (Nat × String)) (e : Event) : Event :=
  if todo.any (fun pr => pr.1 == e.id && !(pyStrip pr.2 == "")) then
    { e with vectorized := true }
  else e

/-- A one-event state whose only event is eligible for the backlog sweep. -/
def sW : SysState := ⟨⟨[⟨1, 10, "ocr", some "hello", false, none⟩], 2, [], 1⟩, none⟩


/-! ### Properties of the stable sort -/

theorem insSorted_perm (le : α → α → Bool) (a : α) (l : List α) :
    List.Perm (insSorted le a l) (a :: l) := by
  induction l with
  | nil => exact List.Perm.refl _
  | cons b l ih =>
    simp only [insSorted]
    split
    · exact List.Perm.refl _
    · exact (ih.cons b).trans (List.Perm.swap a b l)

theorem stableSort_perm (le : α → α → Bool) (l : List α) :
    List.Perm (stableSort le l) l := by
  induction l with
  | nil => exact List.Perm.refl _
  | cons a l ih => exact (insSorted_perm le a (stableSort le l)).trans (ih.cons a)

theorem length_stableSort (le : α → α → Bool) (l : List α) :
    (stableSort le l).length = l.length := (stableSort_perm le l).length_eq

theorem mem_stableSort (le : α → α → Bool) {a : α} {l : List α} :
    a ∈ stableSort le l ↔ a ∈ l := (stableSort_perm le l).mem_iff

theorem sorted_insSorted (le : α → α → Bool)
    (htrans : ∀ a b c, le a b = true → le b c = true → le a c = true)
    (htotal : ∀ a b, le a b = true ∨ le b a = true) (a : α) {l : List α}
    (h : l.Pairwise (fun x y => le x y = true)) :
    (insSorted le a l).Pairwise (fun x y => le x y = true) := by
  induction l with
  | nil => simp [insSorted]
  | cons b l ih =>
    rcases List.pairwise_cons.mp h with ⟨hb, hl⟩
    simp only [insSorted]
    split
    · rename_i hab
      refine List.pairwise_cons.mpr ⟨?_, h⟩
      intro c hc
      rcases List.mem_cons.mp hc with rfl | hc
      · exact hab
      · exact htrans a b c hab (hb c hc)
    · rename_i hab
      have hba : le b a = true := by
        rcases htotal a b with hx | hx
        · exact absurd hx hab
        · exact hx
      refine List.pairwise_cons.mpr ⟨?_, ih hl⟩
      intro c hc
      rcases List.mem_cons.mp ((insSorted_perm le a l).mem_iff.mp hc) with rfl | hc2
      · exact hba
      · exact hb c hc2

theorem sorted_stableSort (le : α → α → Bool)
    (htrans : ∀ a b c, le a b = true → le b c = true → le a c = true)
    (htotal : ∀ a b, le a b = true ∨ le b a = true) (l : List α) :
    (stableSort le l).Pairwise (fun x y => le x y = true) := by
  induction l with
  | nil => exact List.Pairwise.nil
  | cons a l ih => exact sorted_insSorted le htrans htotal a ih

theorem stableSort_of_sorted (le : α → α → Bool) {l : List α}
    (h : l.Pairwise (fun x y => le x y = true)) : stableSort le l = l := by
  induction l with
  | nil => rfl
  | cons a l ih =>
    rcases List.pairwise_cons.mp h with ⟨ha, hl⟩
    show insSorted le a (stableSort le l) = a :: l
    rw [ih hl]
    cases l with
    | nil => rfl
    | cons b l => simp [insSorted, ha b (List.mem_cons_self b l)]

/-! ### C10 -/

/-- Claim C10: for every event id, `vectorize_and_store` on text that is
`None`, empty, or whitespace-only returns `None` and leaves the database,
the index, the snapshot and every `vectorized` flag unchanged. -/
theorem c10_blank_text_is_noop (p : Provider) (s : SysState) (idx : FaissIndex)
    (event_id : Nat) (text : Option String)
    (h : text = none ∨ ∃ c, text = some c ∧ pyStrip c = "") :
    vectorize_and_store p s idx event_id text = (s, idx, Except.ok none) := by
  rcases h with rfl | ⟨c, rfl, hc⟩
  · rfl
  · simp [vectorize_and_store, hc]

/-- Witness for C10 at whitespace-only text. -/
theorem c10_blank_text_is_noop_witness :
    vectorize_and_store pEx sEx idxEx 7 (some "  ") = (sEx, idxEx, Except.ok none) :=
  c10_blank_text_is_noop pEx sEx idxEx 7 (some "  ") (Or.inr ⟨"  ", rfl, by decide⟩)

/-! ### C9 -/

/-- Claim C9: when the query-expansion collaborator raises, the exception is
caught and the search behaves exactly as if the expander had returned no
additional queries: same result as with an expander returning `[]`, for
every query, `top_k`, provider and state. -/
theorem c9_expansion_failure_is_non_fatal (p : Provider) (s : SysState) (idx : FaissIndex)
    (expander : String → Except String (List String)) (err : String)
    (query_text : String) (top_k : Nat) (hfail : expander query_text = Except.error err) :
    search_similar_events p s idx expander query_text top_k
      = search_similar_events p s idx (fun _ => Except.ok []) query_text top_k := by
  simp [search_similar_events, queriesOf, hfail]

/-- Witness for C9 with an always-raising expander. -/
theorem c9_expansion_failure_is_non_fatal_witness :
    search_similar_events pEx sEx idxEx (fun _ => Except.error "llm unavailable") "hello" 5
      = search_similar_events pEx sEx idxEx (fun _ => Except.ok []) "hello" 5 :=
  c9_expansion_failure_is_non_fatal pEx sEx idxEx (fun _ => Except.error "llm unavailable")
    "llm unavailable" "hello" 5 rfl

/-! ### C3 -/

/-- Claim C3 is false on the code: with a live provider of dimension 1 and a
persisted snapshot of dimension 3, startup succeeds and returns the
mismatched snapshot unchanged instead of failing. -/
theorem c3_counterexample :
    load_or_create_index pEx ⟨⟨[], 1, [], 1⟩, some ⟨3, [[1, 2, 3]]⟩⟩
      = Except.ok (1, ⟨3, [[1, 2, 3]]⟩) ∧ (3 : Nat) ≠ 1 :=
  ⟨rfl, by decide⟩

/-- Claim C3 (amended): at startup, when a persisted snapshot exists and the
provider probe succeeds, the snapshot is loaded and returned as the live
index with no dimension comparison and no error, even when its dimension
differs from the provider's. -/
theorem c3_snapshot_loaded_without_dimension_check (p : Provider) (s : SysState)
    (idx : FaissIndex) (v : List Int) (hsnap : s.snapshot = some idx)
    (hprobe : p.encode "sample text" = Except.ok v) :
    load_or_create_index p s = Except.ok (v.length, idx) := by
  simp [load_or_create_index, hprobe, hsnap]

/-- Witness for the amended C3 at a dimension-3 snapshot under a
dimension-1 provider. -/
theorem c3_snapshot_loaded_without_dimension_check_witness :
    load_or_create_index pEx ⟨⟨[], 1, [], 1⟩, some ⟨3, [[1, 2, 3]]⟩⟩
      = Except.ok (1, ⟨3, [[1, 2, 3]]⟩) :=
  c3_snapshot_loaded_without_dimension_check pEx ⟨⟨[], 1, [], 1⟩, some ⟨3, [[1, 2, 3]]⟩⟩
    ⟨3, [[1, 2, 3]]⟩ [0] rfl rfl

/-! ### C4 -/

/-- Claim C4 is false on the code: with a snapshot holding 0 vectors while
the vector store holds 1 row, startup loads the snapshot as-is, leaving the
count divergence in place with no rebuild and no error. -/
theorem c4_counterexample :
    load_or_create_index pEx ⟨⟨[], 1, [⟨1, 1, [0], 1⟩], 2⟩, some ⟨1, []⟩⟩
      = Except.ok (1, ⟨1, []⟩) ∧
    (FaissIndex.mk 1 []).vecs.length = 0 ∧
    (DBState.mk [] 1 [⟨1, 1, [0], 1⟩] 2).vectors.length = 1 :=
  ⟨rfl, rfl, rfl⟩

/-- Helper: the rebuild succeeds and produces one index vector per store
row whenever all stored vectors have the index dimension. -/
theorem rebuild_index_from_db_count (db : DBState) (idx : FaissIndex)
    (hdim : ∀ r, r ∈ db.vectors → r.vector.length = idx.dim) :
    ∃ idx1, rebuild_index_from_db db idx = Except.ok idx1 ∧
      idx1.dim = idx.dim ∧ idx1.vecs.length = idx.vecs.length + db.vectors.length := by
  unfold rebuild_index_from_db
  cases hv : stableSort (fun a b => a.id ≤ b.id) db.vectors with
  | nil =>
    have hlen : db.vectors.length = 0 := by
      have := length_stableSort (fun (a b : VectorRow) => a.id ≤ b.id) db.vectors
      rw [hv] at this
      exact this.symm
    exact ⟨idx, by simp [hv], rfl, by omega⟩
  | cons r rs =>
    have hall : ((r :: rs).map (fun r => r.vector)).all (fun v => v.length == idx.dim) = true := by
      rw [List.all_eq_true]
      intro v hvmem
      rcases List.mem_map.mp hvmem with ⟨row, hrow, rfl⟩
      have : row ∈ db.vectors := (mem_stableSort _).mp (hv ▸ hrow)
      exact beq_iff_eq.mpr (hdim row this)
    have haddb : idx.addBatch ((r :: rs).map (fun r => r.vector))
        = Except.ok { idx with vecs := idx.vecs ++ (r :: rs).map (fun r => r.vector) } := by
      unfold FaissIndex.addBatch
      rw [if_pos hall]
    refine ⟨{ idx with vecs := idx.vecs ++ (r :: rs).map (fun r => r.vector) }, ?_, rfl, ?_⟩
    · have haddb2 := haddb
      simp only [List.map_cons] at haddb2
      simp [hv, haddb2]
    · have := length_stableSort (fun (a b : VectorRow) => a.id ≤ b.id) db.vectors
      rw [hv] at this
      simp only [List.length_append, List.length_map]
      omega

/-- Claim C4 (amended): the count invariant between the Vector Store and the
index is established at startup only when no snapshot file exists, in which
case a full rebuild from the store yields an index with exactly one vector
per store row; when a snapshot exists it is loaded as-is, with no count
comparison, and any divergence is left in place. -/
theorem c4_count_invariant_only_without_snapshot (p : Provider) (s : SysState)
    (v : List Int) (hprobe : p.encode "sample text" = Except.ok v) :
    (∀ idx, s.snapshot = some idx → load_or_create_index p s = Except.ok (v.length, idx)) ∧
    (s.snapshot = none → (∀ r, r ∈ s.db.vectors → r.vector.length = v.length) →
      ∃ idx, load_or_create_index p s = Except.ok (v.length, idx) ∧
        idx.vecs.length = s.db.vectors.length) := by
  constructor
  · intro idx hsnap
    simp [load_or_create_index, hprobe, hsnap]
  · intro hsnap hdim
    rcases rebuild_index_from_db_count s.db ⟨v.length, []⟩ hdim with ⟨idx1, hre, hdim1, hlen⟩
    refine ⟨idx1, ?_, by simpa using hlen⟩
    simp [load_or_create_index, hprobe, hsnap, hre]

/-- Witness for the amended C4: a diverged snapshot is returned unchanged,
and a missing snapshot triggers a rebuild matching the store count. -/
theorem c4_count_invariant_only_without_snapshot_witness :
    (load_or_create_index pEx ⟨⟨[], 1, [⟨1, 1, [0], 1⟩], 2⟩, some ⟨1, []⟩⟩
      = Except.ok (1, ⟨1, []⟩)) ∧
    ∃ idx, load_or_create_index pEx ⟨⟨[], 1, [⟨1, 1, [0], 1⟩], 2⟩, none⟩
      = Except.ok (1, idx) ∧ idx.vecs.length = 1 := by
  constructor
  · exact (c4_count_invariant_only_without_snapshot pEx
      ⟨⟨[], 1, [⟨1, 1, [0], 1⟩], 2⟩, some ⟨1, []⟩⟩ [0] rfl).1 ⟨1, []⟩ rfl
  · exact (c4_count_invariant_only_without_snapshot pEx
      ⟨⟨[], 1, [⟨1, 1, [0], 1⟩], 2⟩, none⟩ [0] rfl).2 rfl
      (by intro r hr; simp at hr; subst hr; rfl)

/-! ### C5 -/

/-- Helper: under strictly increasing row ids (the representation invariant
of SQLite AUTOINCREMENT rowids), `ORDER BY id` returns the rows unchanged. -/
theorem sort_by_id_of_strictly_sorted {l : List VectorRow}
    (h : l.Pairwise (fun a b => a.id < b.id)) :
    stableSort (fun a b => a.id ≤ b.id) l = l :=
  stableSort_of_sorted _ (h.imp (fun hab => decide_eq_true (Nat.le_of_lt hab)))

/-- Helper: the rebuild under matching dimensions appends exactly the stored
vectors, in ascending-id order. -/
theorem rebuild_index_from_db_eq (db : DBState) (idx : FaissIndex)
    (hsorted : db.vectors.Pairwise (fun a b => a.id < b.id))
    (hdim : ∀ r, r ∈ db.vectors → r.vector.length = idx.dim) :
    rebuild_index_from_db db idx
      = Except.ok { idx with vecs := idx.vecs ++ db.vectors.map (fun r => r.vector) } := by
  unfold rebuild_index_from_db
  rw [sort_by_id_of_strictly_sorted hsorted]
  cases hcase : db.vectors with
  | nil => simp
  | cons r rs =>
    have hall : ((r :: rs).map (fun x => x.vector)).all (fun v => v.length == idx.dim) = true := by
      rw [List.all_eq_true]
      intro v hvmem
      rcases List.mem_map.mp hvmem with ⟨row, hrow, rfl⟩
      exact beq_iff_eq.mpr (hdim row (hcase ▸ hrow))
    have haddb : idx.addBatch ((r :: rs).map (fun x => x.vector))
        = Except.ok { idx with vecs := idx.vecs ++ (r :: rs).map (fun x => x.vector) } := by
      unfold FaissIndex.addBatch
      rw [if_pos hall]
    have haddb2 := haddb
    simp only [List.map_cons] at haddb2
    simp [haddb2]

/-- Claim C5: when no snapshot exists, `_rebuild_index_from_db` reads every
vector-store row in insertion order (ascending id) and appends the vectors
in that order, so position `i` of the index rebuilt from the fresh empty
index holds the vector of the `i`-th row ever inserted; on an empty store it
returns the empty index unchanged, without error. -/
theorem c5_rebuild_in_insertion_order (db : DBState) (d : Nat)
    (hsorted : db.vectors.Pairwise (fun a b => a.id < b.id))
    (hdim : ∀ r, r ∈ db.vectors → r.vector.length = d) :
    rebuild_index_from_db db ⟨d, []⟩ = Except.ok ⟨d, db.vectors.map (fun r => r.vector)⟩ ∧
    (∀ i (h : i < db.vectors.length),
      (db.vectors.map (fun r => r.vector)).get ⟨i, by simpa using h⟩
        = (db.vectors.get ⟨i, h⟩).vector) ∧
    (db.vectors = [] → rebuild_index_from_db db ⟨d, []⟩ = Except.ok ⟨d, []⟩) := by
  refine ⟨?_, ?_, ?_⟩
  · have := rebuild_index_from_db_eq db ⟨d, []⟩ hsorted hdim
    simpa using this
  · intro i h
    simp
  · intro hnil
    unfold rebuild_index_from_db
    rw [hnil]
    rfl

/-- Witness for C5 on a two-row store. -/
theorem c5_rebuild_in_insertion_order_witness :
    rebuild_index_from_db ⟨[], 1, [⟨1, 1, [3], 1⟩, ⟨2, 2, [4], 1⟩], 3⟩ ⟨1, []⟩
      = Except.ok ⟨1, [[3], [4]]⟩ := by
  have h := (c5_rebuild_in_insertion_order ⟨[], 1, [⟨1, 1, [3], 1⟩, ⟨2, 2, [4], 1⟩], 3⟩ 1
    (by decide) (by decide)).1
  simpa using h

/-! ### C2 -/

/-- Helper: `vectorize_and_store` never touches the fields of the events
table other than the `vectorized` flag of the targeted event: its resulting
events table is either unchanged or flag-marked at `event_id`. -/
theorem vas_events_shape (p : Provider) (s : SysState) (idx : FaissIndex) (event_id : Nat)
    (text : Option String) :
    (vectorize_and_store p s idx event_id text).1.db.events = s.db.events ∨
    (vectorize_and_store p s idx event_id text).1.db.events
      = s.db.events.map (markOne event_id) := by
  cases text with
  | none => exact Or.inl rfl
  | some t =>
    simp only [vectorize_and_store]
    by_cases hblank : (pyStrip t == "") = true
    · simp [hblank]
    · rw [if_neg hblank]
      cases hvt : vectorize_text p (some t) with
      | error e => simp [hvt]
      | ok ov =>
        cases ov with
        | none => simp [hvt]
        | some v =>
          simp only [hvt]
          unfold store_vector
          cases hadd : idx.add v with
          | error e => simp [hadd]
          | ok idx1 => simp [hadd, mark_event_vectorized]


/-- Helper: `store_event` computes exactly insert-then-maybe-vectorize. -/
theorem store_event_eq (p : Provider) (s : SysState) (idx : FaissIndex) (ts : Int)
    (st : String) (content : Option String) (vectorized : Bool) (mp : Option String)
    (auto : Bool) :
    store_event p s idx ts st content vectorized mp auto
      = (if auto && pyTruthyContent content && !vectorized then
          ((vectorize_and_store p
              (insertEventState s ⟨s.db.nextEventId, ts, st, content, vectorized, mp⟩) idx
              s.db.nextEventId content).1,
           (vectorize_and_store p
              (insertEventState s ⟨s.db.nextEventId, ts, st, content, vectorized, mp⟩) idx
              s.db.nextEventId content).2.1,
           s.db.nextEventId)
         else (insertEventState s ⟨s.db.nextEventId, ts, st, content, vectorized, mp⟩, idx,
           s.db.nextEventId)) := by
  simp only [store_event, insertEventState]

/-- Claim C2: with `auto_vectorize` enabled, `store_event` inserts the event
first and returns the fresh event id; whatever the embedding provider or the
vector storage then does — skipping, failing, or raising — the inserted
event stays in the events table with its submitted fields (only its
`vectorized` flag can change) and no exception reaches the caller (the
embedded function is total and always returns the id). -/
theorem c2_insert_survives_vectorization_failure (p : Provider) (s : SysState)
    (idx : FaissIndex) (ts : Int) (st : String) (content : Option String)
    (mp : Option String) :
    (store_event p s idx ts st content false mp true).2.2 = s.db.nextEventId ∧
    ∃ e, e ∈ (store_event p s idx ts st content false mp true).1.db.events ∧
      e.id = s.db.nextEventId ∧ e.timestamp = ts ∧ e.source_type = st ∧
      e.content = content ∧ e.media_path = mp := by
  rw [store_event_eq]
  by_cases hc : (true && pyTruthyContent content && !false) = true
  · rw [if_pos hc]
    refine ⟨rfl, ?_⟩
    have hmem : (⟨s.db.nextEventId, ts, st, content, false, mp⟩ : Event)
        ∈ (insertEventState s ⟨s.db.nextEventId, ts, st, content, false, mp⟩).db.events := by
      simp [insertEventState]
    rcases vas_events_shape p (insertEventState s ⟨s.db.nextEventId, ts, st, content, false, mp⟩)
        idx s.db.nextEventId content with hsh | hsh
    · exact ⟨⟨s.db.nextEventId, ts, st, content, false, mp⟩, by rw [hsh]; exact hmem,
        rfl, rfl, rfl, rfl, rfl⟩
    · refine ⟨markOne s.db.nextEventId ⟨s.db.nextEventId, ts, st, content, false, mp⟩, ?_,
        by simp [markOne], by simp [markOne], by simp [markOne], by simp [markOne],
        by simp [markOne]⟩
      rw [hsh]
      exact List.mem_map_of_mem (markOne s.db.nextEventId) hmem
  · rw [if_neg hc]
    exact ⟨rfl, ⟨s.db.nextEventId, ts, st, content, false, mp⟩, by simp [insertEventState],
      rfl, rfl, rfl, rfl, rfl⟩

/-! ### C8 -/

/-- Helper: when every query variant contributes no hits, the fused search
returns the empty list. -/
theorem search_similar_events_empty_of_no_hits (p : Provider) (s : SysState)
    (idx : FaissIndex) (expander : String → Except String (List String)) (q : String)
    (k : Nat) (h : ∀ t, hitsOf p s idx k t = []) :
    search_similar_events p s idx expander q k = [] := by
  unfold search_similar_events
  have hfold : ∀ (qs : List String) (agg : List (Nat × Hit)),
      qs.foldl (fun agg t => (hitsOf p s idx k t).foldl aggStep agg) agg = agg := by
    intro qs
    induction qs with
    | nil => intro agg; rfl
    | cons t ts ih => intro agg; simp [h t, ih]
  simp [hfold, stableSort]

/-- Helper: on an empty index every k-NN lookup fails (FAISS requires
`k > 0` but `min top_k 0 = 0`), the exception is caught, and the query
contributes no hits. -/
theorem hitsOf_empty_index (p : Provider) (s : SysState) (idx : FaissIndex) (k : Nat)
    (t : String) (hempty : idx.vecs = []) : hitsOf p s idx k t = [] := by
  unfold hitsOf search_similar
  by_cases hblank : (pyStrip t == "") = true
  · simp [hblank]
  · rw [if_neg hblank]
    cases hvt : vectorize_text p (some t) with
    | error e => simp [hvt]
    | ok ov =>
      cases ov with
      | none => simp [hvt]
      | some qv => simp [hvt, FaissIndex.knnSearch, hempty]

/-- Helper: an empty or whitespace-only query contributes no hits. -/
theorem hitsOf_blank_query (p : Provider) (s : SysState) (idx : FaissIndex) (k : Nat)
    (t : String) (hblank : pyStrip t = "") : hitsOf p s idx k t = [] := by
  unfold hitsOf search_similar
  simp [hblank]

/-- Claim C8 is false on the code as stated: with a non-empty index and an
expander that turns the whitespace-only query into a real phrasing, the
whitespace-only query returns a non-empty result (the top-level search has
no whitespace guard of its own; only each per-query lookup does). -/
theorem c8_counterexample :
    search_similar_events pEx sEx idxEx (fun _ => Except.ok ["hey"]) "   " 5 ≠ [] := by
  decide

/-- Claim C8 (amended): for every `top_k`, query and expander, search
against an empty index returns the empty sequence rather than raising; and
search with an empty or whitespace-only query returns the empty sequence
provided query expansion contributes no additional queries (it fails or
returns none) — with an expander that does return phrasings for such a
query, their hits are returned. -/
theorem c8_empty_index_and_blank_query (p : Provider) (s : SysState) (idx : FaissIndex)
    (expander : String → Except String (List String)) (q : String) (k : Nat) :
    (idx.vecs = [] → search_similar_events p s idx expander q k = []) ∧
    (pyStrip q = "" →
      (expander q = Except.ok [] ∨ ∃ err, expander q = Except.error err) →
      search_similar_events p s idx expander q k = []) := by
  constructor
  · intro hempty
    exact search_similar_events_empty_of_no_hits p s idx expander q k
      (fun t => hitsOf_empty_index p s idx k t hempty)
  · intro hblank hexp
    unfold search_similar_events queriesOf
    have hq : hitsOf p s idx k q = [] := hitsOf_blank_query p s idx k q hblank
    rcases hexp with hexp | ⟨err, hexp⟩ <;> simp [hexp, hq, stableSort]

/-- Witness for the amended C8: an empty index yields `[]` even under an
expanding expander, and a whitespace query yields `[]` when expansion
fails. -/
theorem c8_empty_index_and_blank_query_witness :
    search_similar_events pEx sEx ⟨1, []⟩ (fun _ => Except.ok ["hey"]) "hello" 5 = [] ∧
    search_similar_events pEx sEx idxEx (fun _ => Except.error "llm down") "   " 5 = [] :=
  ⟨(c8_empty_index_and_blank_query pEx sEx ⟨1, []⟩ (fun _ => Except.ok ["hey"]) "hello" 5).1
      rfl,
   (c8_empty_index_and_blank_query pEx sEx idxEx (fun _ => Except.error "llm down") "   " 5).2
      (by decide) (Or.inr ⟨"llm down", rfl⟩)⟩

/-! ### C1 -/

/-- Helper: in an association list with distinct keys, a key determines the
entry. -/
theorem key_unique {agg : List (Nat × Hit)} (hnd : (agg.map Prod.fst).Nodup)
    {pr pr' : Nat × Hit} (h1 : pr ∈ agg) (h2 : pr' ∈ agg) (heq : pr.1 = pr'.1) :
    pr = pr' := by
  induction agg with
  | nil => cases h1
  | cons a l ih =>
    rw [List.map_cons, List.nodup_cons] at hnd
    obtain ⟨hhead, htail⟩ := hnd
    rcases List.mem_cons.mp h1 with h1e | h1t
    · rcases List.mem_cons.mp h2 with h2e | h2t
      · rw [h1e, h2e]
      · exfalso
        apply hhead
        rw [← h1e, heq]
        exact List.mem_map_of_mem Prod.fst h2t
    · rcases List.mem_cons.mp h2 with h2e | h2t
      · exfalso
        apply hhead
        rw [← h2e, ← heq]
        exact List.mem_map_of_mem Prod.fst h1t
      · exact ih htail h1t h2t

/-- Helper: one aggregation step preserves the invariant. -/
theorem aggStep_ok {processed : List Hit} {agg : List (Nat × Hit)} (res : Hit)
    (hok : AggOk processed agg) : AggOk (processed ++ [res]) (aggStep agg res) := by
  obtain ⟨hnd, hent, hcov⟩ := hok
  unfold aggStep
  cases hfind : agg.find? (fun pr => pr.1 == res.event_id) with
  | none =>
    dsimp only
    have hno : ∀ pr, pr ∈ agg → pr.1 ≠ res.event_id := by
      intro pr hpr
      have := List.find?_eq_none.mp hfind pr hpr
      simpa using this
    refine ⟨?_, ?_, ?_⟩
    · rw [List.map_append, List.map_cons, List.map_nil, List.nodup_append]
      refine ⟨hnd, List.nodup_singleton _, ?_⟩
      intro a ha hb
      rw [List.mem_singleton] at hb
      rcases List.mem_map.mp ha with ⟨pr, hpr, rfl⟩
      exact hno pr hpr hb
    · intro pr hpr
      rcases List.mem_append.mp hpr with hpra | hprb
      · obtain ⟨he1, he2, he3⟩ := hent pr hpra
        refine ⟨he1, List.mem_append_left _ he2, ?_⟩
        intro h hh hid
        rcases List.mem_append.mp hh with hha | hhb
        · exact he3 h hha hid
        · rw [List.mem_singleton] at hhb
          rw [hhb] at hid
          exact absurd hid.symm (hno pr hpra)
      · rw [List.mem_singleton] at hprb
        rw [hprb]
        refine ⟨rfl, List.mem_append_right _ (List.mem_singleton_self _), ?_⟩
        intro h hh hid
        rcases List.mem_append.mp hh with hha | hhb
        · rcases hcov h hha with ⟨pr', hpr', hkey⟩
          exact absurd (hkey.trans hid) (hno pr' hpr')
        · rw [List.mem_singleton] at hhb
          rw [hhb]
    · intro h hh
      rcases List.mem_append.mp hh with hha | hhb
      · rcases hcov h hha with ⟨pr', hpr', hkey⟩
        exact ⟨pr', List.mem_append_left _ hpr', hkey⟩
      · rw [List.mem_singleton] at hhb
        rw [hhb]
        exact ⟨(res.event_id, res), List.mem_append_right _ (List.mem_singleton_self _), rfl⟩
  | some pr0 =>
    dsimp only
    have hpr0mem : pr0 ∈ agg := List.mem_of_find?_eq_some hfind
    have hpr0key : pr0.1 = res.event_id := by
      have := List.find?_some hfind
      simpa using this
    obtain ⟨h01, h02, h03⟩ := hent pr0 hpr0mem
    by_cases hlt : res.similarity_score < pr0.2.similarity_score
    · rw [if_pos hlt]
      have hkeys : (agg.map (fun q => if q.1 == res.event_id then (q.1, res) else q)).map
          Prod.fst = agg.map Prod.fst := by
        rw [List.map_map]
        apply List.map_congr_left
        intro q hq
        show (if (q.1 == res.event_id) = true then (q.1, res) else q).1 = q.1
        by_cases hqq : (q.1 == res.event_id) = true
        · rw [if_pos hqq]
        · rw [if_neg hqq]
      refine ⟨by rw [hkeys]; exact hnd, ?_, ?_⟩
      · intro pr hpr
        rcases List.mem_map.mp hpr with ⟨q, hq, hqpr⟩
        by_cases hqq : (q.1 == res.event_id) = true
        · rw [if_pos hqq] at hqpr
          rw [← hqpr]
          have hqkey : q.1 = res.event_id := by simpa using hqq
          refine ⟨hqkey.symm, List.mem_append_right _ (List.mem_singleton_self _), ?_⟩
          intro h hh hid
          rcases List.mem_append.mp hh with hha | hhb
          · have hq0 : q = pr0 := key_unique hnd hq hpr0mem (by rw [hqkey, ← hpr0key])
            have hmin := h03 h hha (by rw [← hq0]; exact hid)
            exact le_trans (le_of_lt hlt) hmin
          · rw [List.mem_singleton] at hhb
            rw [hhb]
        · rw [if_neg hqq] at hqpr
          rw [← hqpr]
          obtain ⟨he1, he2, he3⟩ := hent q hq
          refine ⟨he1, List.mem_append_left _ he2, ?_⟩
          intro h hh hid
          rcases List.mem_append.mp hh with hha | hhb
          · exact he3 h hha hid
          · rw [List.mem_singleton] at hhb
            rw [hhb] at hid
            exact absurd (beq_iff_eq.mpr hid.symm) hqq
      · intro h hh
        rcases List.mem_append.mp hh with hha | hhb
        · rcases hcov h hha with ⟨pr', hpr', hkey⟩
          refine ⟨if pr'.1 == res.event_id then (pr'.1, res) else pr',
            List.mem_map_of_mem _ hpr', ?_⟩
          show (if (pr'.1 == res.event_id) = true then (pr'.1, res) else pr').1 = h.event_id
          by_cases hqq : (pr'.1 == res.event_id) = true
          · rw [if_pos hqq]
            exact hkey
          · rw [if_neg hqq]
            exact hkey
        · rw [List.mem_singleton] at hhb
          refine ⟨(pr0.1, res), ?_, by rw [hhb, hpr0key]⟩
          have himg : (if (pr0.1 == res.event_id) = true then (pr0.1, res) else pr0)
              = (pr0.1, res) := by
            rw [if_pos (beq_iff_eq.mpr hpr0key)]
          exact himg ▸ List.mem_map_of_mem _ hpr0mem
    · rw [if_neg hlt]
      refine ⟨hnd, ?_, ?_⟩
      · intro pr hpr
        obtain ⟨he1, he2, he3⟩ := hent pr hpr
        refine ⟨he1, List.mem_append_left _ he2, ?_⟩
        intro h hh hid
        rcases List.mem_append.mp hh with hha | hhb
        · exact he3 h hha hid
        · rw [List.mem_singleton] at hhb
          rw [hhb] at hid ⊢
          have hpp : pr = pr0 := key_unique hnd hpr hpr0mem (hid.symm.trans hpr0key.symm)
          rw [hpp]
          exact le_of_not_lt hlt
      · intro h hh
        rcases List.mem_append.mp hh with hha | hhb
        · exact hcov h hha
        · rw [List.mem_singleton] at hhb
          rw [hhb]
          exact ⟨pr0, hpr0mem, hpr0key⟩

/-- Helper: the empty aggregation satisfies the invariant. -/
theorem aggOk_nil : AggOk [] [] := by
  refine ⟨List.nodup_nil, ?_, ?_⟩
  · intro pr hpr
    cases hpr
  · intro h hh
    cases hh

/-- Helper: folding a hit list into the dict preserves the invariant. -/
theorem aggOk_foldl (L : List Hit) : ∀ (processed : List Hit) (agg : List (Nat × Hit)),
    AggOk processed agg → AggOk (processed ++ L) (L.foldl aggStep agg) := by
  induction L with
  | nil =>
    intro processed agg h
    simpa using h
  | cons r L ih =>
    intro processed agg h
    have h2 := ih (processed ++ [r]) (aggStep agg r) (aggStep_ok r h)
    simpa [List.append_assoc] using h2

/-- Helper: the nested per-query fold of `search_similar_events` equals one
fold over the concatenation of all queries' hits. -/
theorem foldl_hits_flatten (p : Provider) (s : SysState) (idx : FaissIndex) (k : Nat) :
    ∀ (qs : List String) (agg : List (Nat × Hit)),
      qs.foldl (fun agg q => (hitsOf p s idx k q).foldl aggStep agg) agg
        = (qs.flatMap (hitsOf p s idx k)).foldl aggStep agg := by
  intro qs
  induction qs with
  | nil => intro agg; rfl
  | cons q qs ih =>
    intro agg
    simp only [List.foldl_cons, List.flatMap_cons, List.foldl_append, ih]

/-- Claim C1: for every query, `top_k`, expander, provider and state, the
fused search result has length at most `top_k`, is sorted ascending by
distance, contains each event at most once, every returned hit is one of the
hits produced by the original or an expanded query and carries the smallest
distance any query variant produced for its event, and no aggregated event
is dropped unless the `top_k` truncation is full. -/
theorem c1_fused_search_is_min_reduction_sorted_truncated (p : Provider) (s : SysState)
    (idx : FaissIndex) (expander : String → Except String (List String))
    (query_text : String) (top_k : Nat) :
    (search_similar_events p s idx expander query_text top_k).length ≤ top_k ∧
    (search_similar_events p s idx expander query_text top_k).Pairwise
      (fun a b => a.similarity_score ≤ b.similarity_score) ∧
    ((search_similar_events p s idx expander query_text top_k).map
      (fun h => h.event_id)).Nodup ∧
    (∀ h, h ∈ search_similar_events p s idx expander query_text top_k →
      h ∈ fusionHits p s idx expander query_text top_k ∧
      (∀ h', h' ∈ fusionHits p s idx expander query_text top_k →
        h'.event_id = h.event_id → h.similarity_score ≤ h'.similarity_score)) ∧
    ((search_similar_events p s idx expander query_text top_k).length < top_k →
      ∀ h', h' ∈ fusionHits p s idx expander query_text top_k →
        ∃ h, h ∈ search_similar_events p s idx expander query_text top_k ∧
          h.event_id = h'.event_id) := by
  have hAgg : AggOk (fusionHits p s idx expander query_text top_k)
      (((queriesOf expander query_text).flatMap (hitsOf p s idx top_k)).foldl aggStep []) := by
    have := aggOk_foldl
      ((queriesOf expander query_text).flatMap (hitsOf p s idx top_k)) [] [] aggOk_nil
    simpa [fusionHits] using this
  have hdef : search_similar_events p s idx expander query_text top_k
      = (stableSort (fun a b => a.similarity_score ≤ b.similarity_score)
          ((((queriesOf expander query_text).flatMap (hitsOf p s idx top_k)).foldl
            aggStep []).map Prod.snd)).take top_k := by
    simp only [search_similar_events]
    rw [foldl_hits_flatten]
  obtain ⟨hnd, hent, hcov⟩ := hAgg
  have htransle : ∀ (a b c : Hit), (decide (a.similarity_score ≤ b.similarity_score)) = true →
      (decide (b.similarity_score ≤ c.similarity_score)) = true →
      (decide (a.similarity_score ≤ c.similarity_score)) = true := by
    intro a b c hab hbc
    exact decide_eq_true (le_trans (of_decide_eq_true hab) (of_decide_eq_true hbc))
  have htotalle : ∀ (a b : Hit), (decide (a.similarity_score ≤ b.similarity_score)) = true ∨
      (decide (b.similarity_score ≤ a.similarity_score)) = true := by
    intro a b
    exact (le_total a.similarity_score b.similarity_score).imp decide_eq_true decide_eq_true
  refine ⟨?_, ?_, ?_, ?_, ?_⟩
  · rw [hdef]
    rw [List.length_take]
    exact Nat.min_le_left _ _
  · rw [hdef]
    have hsorted := sorted_stableSort (fun (a b : Hit) =>
      a.similarity_score ≤ b.similarity_score) htransle htotalle
      ((((queriesOf expander query_text).flatMap (hitsOf p s idx top_k)).foldl
        aggStep []).map Prod.snd)
    exact (hsorted.imp (fun hxy => of_decide_eq_true hxy)).sublist (List.take_sublist _ _)
  · rw [hdef]
    have hvals : ((((queriesOf expander query_text).flatMap (hitsOf p s idx top_k)).foldl
        aggStep []).map Prod.snd).map (fun h => h.event_id)
        = (((queriesOf expander query_text).flatMap (hitsOf p s idx top_k)).foldl
          aggStep []).map Prod.fst := by
      rw [List.map_map]
      apply List.map_congr_left
      intro pr hpr
      exact (hent pr hpr).1
    have hperm := (stableSort_perm (fun (a b : Hit) =>
      a.similarity_score ≤ b.similarity_score)
      ((((queriesOf expander query_text).flatMap (hitsOf p s idx top_k)).foldl
        aggStep []).map Prod.snd)).map (fun h => h.event_id)
    have hndsort : ((stableSort (fun (a b : Hit) =>
        a.similarity_score ≤ b.similarity_score)
        ((((queriesOf expander query_text).flatMap (hitsOf p s idx top_k)).foldl
          aggStep []).map Prod.snd)).map (fun h => h.event_id)).Nodup := by
      refine hperm.symm.nodup ?_
      rw [hvals]
      exact hnd
    exact hndsort.sublist ((List.take_sublist _ _).map _)
  · rw [hdef]
    intro h hh
    have hmem : h ∈ (((queriesOf expander query_text).flatMap (hitsOf p s idx top_k)).foldl
        aggStep []).map Prod.snd :=
      (mem_stableSort _).mp ((List.take_sublist _ _).mem hh)
    rcases List.mem_map.mp hmem with ⟨pr, hpr, hpr2⟩
    obtain ⟨he1, he2, he3⟩ := hent pr hpr
    constructor
    · rw [← hpr2]
      exact he2
    · intro h' hh' hid
      rw [← hpr2]
      exact he3 h' hh' (by rw [hid, ← hpr2, he1])
  · intro hlen h' hh'
    rw [hdef] at hlen ⊢
    rw [List.length_take] at hlen
    have hslen : (stableSort (fun (a b : Hit) => a.similarity_score ≤ b.similarity_score)
        ((((queriesOf expander query_text).flatMap (hitsOf p s idx top_k)).foldl
          aggStep []).map Prod.snd)).length < top_k := by
      rcases Nat.lt_or_ge ((stableSort (fun (a b : Hit) =>
        a.similarity_score ≤ b.similarity_score)
        ((((queriesOf expander query_text).flatMap (hitsOf p s idx top_k)).foldl
          aggStep []).map Prod.snd)).length) top_k with hx | hx
      · exact hx
      · rw [Nat.min_eq_left hx] at hlen
        exact absurd hlen (lt_irrefl _)
    rw [List.take_of_length_le (le_of_lt hslen)]
    rcases hcov h' hh' with ⟨pr, hpr, hkey⟩
    refine ⟨pr.2, ?_, ?_⟩
    · exact (mem_stableSort _).mpr (List.mem_map_of_mem Prod.snd hpr)
    · rw [(hent pr hpr).1, hkey]

/-! ### C6 / C7 machinery -/

/-- Helper: blank text short-circuits `vectorize_and_store`. -/
theorem vas_blank (p : Provider) (s : SysState) (idx : FaissIndex) (eid : Nat) (t : String)
    (hb : (pyStrip t == "") = true) :
    vectorize_and_store p s idx eid (some t) = (s, idx, Except.ok none) := by
  simp only [vectorize_and_store]
  rw [if_pos hb]

/-- Helper: the full success path of `vectorize_and_store`: row inserted,
index and snapshot extended, event marked, vector id returned. -/
theorem vas_success (p : Provider) (s : SysState) (idx : FaissIndex) (eid : Nat) (t : String)
    (hnb : ¬(pyStrip t == "") = true) (v : List Int)
    (henc : p.encode (pyStrip t) = Except.ok v) (hdim : v.length = idx.dim) :
    vectorize_and_store p s idx eid (some t)
      = (⟨⟨s.db.events.map (markOne eid), s.db.nextEventId,
           s.db.vectors ++ [⟨s.db.nextVectorId, eid, v, v.length⟩], s.db.nextVectorId + 1⟩,
          some ⟨idx.dim, idx.vecs ++ [v]⟩⟩,
         ⟨idx.dim, idx.vecs ++ [v]⟩, Except.ok (some s.db.nextVectorId)) := by
  simp only [vectorize_and_store]
  rw [if_neg hnb]
  have hvt : vectorize_text p (some t) = Except.ok (some v) := by
    simp only [vectorize_text]
    rw [if_neg hnb, henc]
    rfl
  rw [hvt]
  have hadd : idx.add v = Except.ok ⟨idx.dim, idx.vecs ++ [v]⟩ := by
    simp only [FaissIndex.add]
    rw [if_pos hdim]
  simp only [store_vector, hadd, mark_event_vectorized]

/-- Helper: under a dimension-consistent provider, `vectorize_and_store`
either leaves the state and index unchanged (blank text, provider failure)
or performs the full success path. -/
theorem vas_state_cases (p : Provider) (s : SysState) (idx : FaissIndex) (eid : Nat)
    (t : String) (hd : DimOk p idx.dim) :
    ((vectorize_and_store p s idx eid (some t)).1 = s ∧
     (vectorize_and_store p s idx eid (some t)).2.1 = idx) ∨
    (∃ v, v.length = idx.dim ∧
      (vectorize_and_store p s idx eid (some t)).1
        = ⟨⟨s.db.events.map (markOne eid), s.db.nextEventId,
            s.db.vectors ++ [⟨s.db.nextVectorId, eid, v, v.length⟩],
            s.db.nextVectorId + 1⟩, some ⟨idx.dim, idx.vecs ++ [v]⟩⟩ ∧
      (vectorize_and_store p s idx eid (some t)).2.1 = ⟨idx.dim, idx.vecs ++ [v]⟩) := by
  by_cases hb : (pyStrip t == "") = true
  · left
    rw [vas_blank p s idx eid t hb]
    exact ⟨rfl, rfl⟩
  · cases henc : p.encode (pyStrip t) with
    | error e =>
      left
      have hvas : vectorize_and_store p s idx eid (some t) = (s, idx, Except.error e) := by
        simp only [vectorize_and_store]
        rw [if_neg hb]
        have hvt : vectorize_text p (some t) = Except.error e := by
          simp only [vectorize_text]
          rw [if_neg hb, henc]
          rfl
        rw [hvt]
      rw [hvas]
      exact ⟨rfl, rfl⟩
    | ok v =>
      right
      have hvl : v.length = idx.dim := hd _ v henc
      refine ⟨v, hvl, ?_, ?_⟩
      · rw [vas_success p s idx eid t hb v henc hvl]
      · rw [vas_success p s idx eid t hb v henc hvl]

/-- Helper: the state and index components of one sweep iteration are those
of the underlying `vectorize_and_store` call, whatever its outcome. -/
theorem sweepStep_state (p : Provider) (acc : SysState × FaissIndex × Nat)
    (item : Nat × String) :
    (sweepStep p acc item).1 = (vectorize_and_store p acc.1 acc.2.1 item.1 (some item.2)).1 ∧
    (sweepStep p acc item).2.1
      = (vectorize_and_store p acc.1 acc.2.1 item.1 (some item.2)).2.1 := by
  rcases hv : vectorize_and_store p acc.1 acc.2.1 item.1 (some item.2) with ⟨s1, idx1, r⟩
  unfold sweepStep
  rw [hv]
  cases r with
  | error e => exact ⟨rfl, rfl⟩
  | ok o =>
    cases o with
    | none => exact ⟨rfl, rfl⟩
    | some vid => exact ⟨rfl, rfl⟩

/-- Helper: an event whose flag is already set is a fixed point of
`sweepFlag`. -/
theorem sweepFlag_marked (todo : List (Nat × String)) (e : Event) :
    sweepFlag todo { e with vectorized := true } = { e with vectorized := true } := by
  unfold sweepFlag
  split
  · rfl
  · rfl

/-- Helper: under a working provider of the index dimension, a sweep over
`todo` flag-marks exactly the events named by a non-blank pair, appends one
vector row per non-blank pair, and preserves the index dimension. -/
theorem sweep_foldl_characterization (p : Provider) (d : Nat)
    (hw : ProviderWorks p) (hd : DimOk p d) :
    ∀ (todo : List (Nat × String)) (s : SysState) (idx : FaissIndex) (n : Nat),
      idx.dim = d →
      ((todo.foldl (sweepStep p) (s, idx, n)).1.db.events
          = s.db.events.map (sweepFlag todo)) ∧
      ((todo.foldl (sweepStep p) (s, idx, n)).1.db.vectors.length
          = s.db.vectors.length + (todo.filter (fun pr => !(pyStrip pr.2 == ""))).length) ∧
      ((todo.foldl (sweepStep p) (s, idx, n)).2.1.dim = d) := by
  intro todo
  induction todo with
  | nil =>
    intro s idx n hdim
    refine ⟨?_, by simp, hdim⟩
    have hid : ∀ e, e ∈ s.db.events → sweepFlag [] e = e := by
      intro e he
      rfl
    rw [List.map_congr_left hid]
    simp
  | cons item todo ih =>
    intro s idx n hdim
    rw [List.foldl_cons]
    by_cases hb : (pyStrip item.2 == "") = true
    · have hstep : sweepStep p (s, idx, n) item = (s, idx, n) := by
        unfold sweepStep
        rw [vas_blank p s idx item.1 item.2 hb]
      rw [hstep]
      obtain ⟨ha, hlen, hdim2⟩ := ih s idx n hdim
      refine ⟨?_, ?_, hdim2⟩
      · rw [ha]
        apply List.map_congr_left
        intro e he
        unfold sweepFlag
        rw [List.any_cons]
        rw [show (item.1 == e.id && !(pyStrip item.2 == "")) = false by rw [hb]; simp]
        rw [Bool.false_or]
      · rw [hlen, List.filter_cons]
        rw [show (!(pyStrip item.2 == "")) = false by rw [hb]; rfl]
        simp
    · rcases hw (pyStrip item.2) with ⟨v, henc⟩
      have hvl : v.length = idx.dim := by
        rw [hdim]
        exact hd _ v henc
      have hstep : sweepStep p (s, idx, n) item
          = (⟨⟨s.db.events.map (markOne item.1), s.db.nextEventId,
               s.db.vectors ++ [⟨s.db.nextVectorId, item.1, v, v.length⟩],
               s.db.nextVectorId + 1⟩, some ⟨idx.dim, idx.vecs ++ [v]⟩⟩,
             ⟨idx.dim, idx.vecs ++ [v]⟩, n + 1) := by
        unfold sweepStep
        rw [vas_success p s idx item.1 item.2 hb v henc hvl]
      rw [hstep]
      obtain ⟨ha, hlen, hdim2⟩ := ih
        ⟨⟨s.db.events.map (markOne item.1), s.db.nextEventId,
          s.db.vectors ++ [⟨s.db.nextVectorId, item.1, v, v.length⟩],
          s.db.nextVectorId + 1⟩, some ⟨idx.dim, idx.vecs ++ [v]⟩⟩
        ⟨idx.dim, idx.vecs ++ [v]⟩ (n + 1) hdim
      refine ⟨?_, ?_, hdim2⟩
      · rw [ha]
        show (s.db.events.map (markOne item.1)).map (sweepFlag todo)
          = s.db.events.map (sweepFlag (item :: todo))
        rw [List.map_map]
        apply List.map_congr_left
        intro e he
        show sweepFlag todo (markOne item.1 e) = sweepFlag (item :: todo) e
        by_cases hid : e.id = item.1
        · have hm : markOne item.1 e = { e with vectorized := true } := by
            unfold markOne
            rw [if_pos hid]
          rw [hm, sweepFlag_marked]
          unfold sweepFlag
          rw [List.any_cons]
          rw [show (item.1 == e.id && !(pyStrip item.2 == "")) = true by
            rw [beq_iff_eq.mpr hid.symm]
            simp [hb]]
          rw [Bool.true_or, if_pos rfl]
        · have hm : markOne item.1 e = e := by
            unfold markOne
            rw [if_neg hid]
          rw [hm]
          unfold sweepFlag
          rw [List.any_cons]
          rw [show (item.1 == e.id && !(pyStrip item.2 == "")) = false by
            rw [show (item.1 == e.id) = false by
              rw [beq_eq_false_iff_ne]
              exact fun hx => hid hx.symm]
            rfl]
          rw [Bool.false_or]
      · have hfalse : (pyStrip item.2 == "") = false := eq_false_of_ne_true hb
        have hnb2 : (!(pyStrip item.2 == "")) = true := by rw [hfalse]; rfl
        rw [hlen, List.filter_cons, if_pos hnb2]
        simp
        omega

/-- Helper: a sweep under an always-raising provider catches every per-event
exception, completes the whole selection, and leaves everything unchanged. -/
theorem sweep_foldl_failures (p : Provider)
    (hf : ∀ t, ∃ msg, p.encode t = Except.error msg) :
    ∀ (todo : List (Nat × String)) (s : SysState) (idx : FaissIndex) (n : Nat),
      todo.foldl (sweepStep p) (s, idx, n) = (s, idx, n) := by
  intro todo
  induction todo with
  | nil => intro s idx n; rfl
  | cons item todo ih =>
    intro s idx n
    rw [List.foldl_cons]
    by_cases hb : (pyStrip item.2 == "") = true
    · have hstep : sweepStep p (s, idx, n) item = (s, idx, n) := by
        unfold sweepStep
        rw [vas_blank p s idx item.1 item.2 hb]
      rw [hstep, ih]
    · rcases hf (pyStrip item.2) with ⟨msg, henc⟩
      have hvas : vectorize_and_store p s idx item.1 (some item.2)
          = (s, idx, Except.error msg) := by
        simp only [vectorize_and_store]
        rw [if_neg hb]
        have hvt : vectorize_text p (some item.2) = Except.error msg := by
          simp only [vectorize_text]
          rw [if_neg hb, henc]
          rfl
        rw [hvt]
      have hstep : sweepStep p (s, idx, n) item = (s, idx, n) := by
        unfold sweepStep
        rw [hvas]
      rw [hstep, ih]

/-- Helper: provenance of the sweep selection: a selected pair carries a
non-empty content string belonging to an event with that id, which is
unvectorized when the sweep is not forced. -/
theorem selectToVectorize_provenance (db : DBState) (force : Bool) (pr : Nat × String)
    (hpr : pr ∈ selectToVectorize db force) :
    pr.2 ≠ "" ∧ ∃ e, e ∈ db.events ∧ e.id = pr.1 ∧ e.content = some pr.2 ∧
      (force = false → e.vectorized = false) := by
  unfold selectToVectorize at hpr
  rcases List.mem_map.mp hpr with ⟨e, hef, hfe⟩
  rcases List.mem_filter.mp hef with ⟨hee, hpred⟩
  cases hc : e.content with
  | none =>
    rw [hc] at hpred
    simp at hpred
  | some c =>
    rw [hc] at hpred
    simp only [Bool.and_eq_true] at hpred
    obtain ⟨hc1, hc2⟩ := hpred
    have hcne : c ≠ "" := by
      intro hx
      rw [hx] at hc1
      simp at hc1
    have hprc : pr = (e.id, c) := by
      rw [← hfe, hc]
      rfl
    refine ⟨by rw [hprc]; exact hcne, e, hee, by rw [hprc], by rw [hprc, hc], ?_⟩
    intro hforce
    rw [hforce] at hc2
    simp at hc2
    exact hc2

/-- Helper: the unforced selection is empty when every event fails its
filter predicate. -/
theorem selectToVectorize_nil_of (db : DBState)
    (h : ∀ e, e ∈ db.events →
      (match e.content with
       | none => false
       | some c => !(c == "") && (false || !e.vectorized)) = false) :
    selectToVectorize db false = [] := by
  unfold selectToVectorize
  rw [List.filter_eq_nil_iff.mpr (by intro a ha; rw [h a ha]; simp)]
  rfl

/-- Claim C6 is false as stated: an unvectorized event whose content is a
single space (non-null and non-empty, hence selected) is skipped by
`vectorize_and_store` without being marked, so with a working provider the
first sweep vectorizes it zero times and the second sweep still selects it —
one event, not zero. -/
theorem c6_counterexample :
    selectToVectorize ((vectorize_existing_events pEx
        ⟨⟨[⟨1, 10, "ocr", some " ", false, none⟩], 2, [], 1⟩, none⟩ ⟨1, []⟩ false).1).db false
      = [(1, " ")] ∧
    ((vectorize_existing_events pEx
        ⟨⟨[⟨1, 10, "ocr", some " ", false, none⟩], 2, [], 1⟩, none⟩ ⟨1, []⟩ false).1).db.vectors
      = [] ∧
    (1 : Nat) ≠ 0 :=
  ⟨by decide, by decide, by decide⟩

/-- Claim C6 (amended): the unforced sweep selects exactly the events whose
content is non-null and non-empty and whose flag is unset (so a
`content=None` event is never selected); per-event failures are caught — an
always-failing provider completes the sweep with no state change; and when
the provider works at the index dimension and no selected event's content is
whitespace-only, the sweep stores exactly one vector row per selected event
and the second consecutive sweep selects zero events.  (A whitespace-only
but non-empty content is selected by every sweep and never vectorized.) -/
theorem c6_backlog_sweep (p : Provider) (s : SysState) (idx : FaissIndex)
    (hw : ProviderWorks p) (hd : DimOk p idx.dim)
    (hnb : ∀ e, e ∈ s.db.events → e.vectorized = false →
      ∀ c, e.content = some c → c ≠ "" → (pyStrip c == "") = false) :
    (∀ force pr, pr ∈ selectToVectorize s.db force →
      pr.2 ≠ "" ∧ ∃ e, e ∈ s.db.events ∧ e.id = pr.1 ∧ e.content = some pr.2 ∧
        (force = false → e.vectorized = false)) ∧
    ((vectorize_existing_events p s idx false).1.db.vectors.length
      = s.db.vectors.length + (selectToVectorize s.db false).length) ∧
    (selectToVectorize ((vectorize_existing_events p s idx false).1).db false = []) ∧
    (∀ pbad : Provider, (∀ t, ∃ msg, pbad.encode t = Except.error msg) →
      vectorize_existing_events pbad s idx false = (s, idx, 0)) := by
  obtain ⟨hev, hlen, _⟩ := sweep_foldl_characterization p idx.dim hw hd
    (selectToVectorize s.db false) s idx 0 rfl
  refine ⟨?_, ?_, ?_, ?_⟩
  · exact fun force pr hpr => selectToVectorize_provenance s.db force pr hpr
  · unfold vectorize_existing_events
    rw [hlen]
    have hfil : (selectToVectorize s.db false).filter (fun pr => !(pyStrip pr.2 == ""))
        = selectToVectorize s.db false := by
      rw [List.filter_eq_self]
      intro pr hpr
      rcases selectToVectorize_provenance s.db false pr hpr with ⟨hp2, e, he, hid, hce, hvf⟩
      have hb := hnb e he (hvf rfl) pr.2 hce hp2
      rw [hb]
      rfl
    rw [hfil]
  · unfold vectorize_existing_events
    apply selectToVectorize_nil_of
    rw [hev]
    intro e' he'
    rcases List.mem_map.mp he' with ⟨e, he, hfe⟩
    rw [← hfe]
    unfold sweepFlag
    by_cases hcond : ((selectToVectorize s.db false).any
        (fun pr => pr.1 == e.id && !(pyStrip pr.2 == ""))) = true
    · rw [if_pos hcond]
      cases e.content <;> simp
    · rw [if_neg hcond]
      cases hc : e.content with
      | none => rfl
      | some c =>
        by_cases hcne : c = ""
        · rw [hcne]
          simp
        · cases hvec : e.vectorized with
          | true => simp [hvec]
          | false =>
            exfalso
            apply hcond
            rw [List.any_eq_true]
            refine ⟨(e.id, c), ?_, ?_⟩
            · unfold selectToVectorize
              have hpred : (match e.content with
                  | none => false
                  | some c => !(c == "") && (false || !e.vectorized)) = true := by
                rw [hc, hvec]
                simp [hcne]
              have hmemf : e ∈ s.db.events.filter (fun e =>
                  match e.content with
                  | none => false
                  | some c => !(c == "") && (false || !e.vectorized)) :=
                List.mem_filter.mpr ⟨he, hpred⟩
              have := List.mem_map_of_mem (fun e => (e.id, e.content.getD "")) hmemf
              simpa [hc] using this
            · have hb := hnb e he hvec c hc hcne
              rw [hb]
              simp
  · intro pbad hfail
    unfold vectorize_existing_events
    exact sweep_foldl_failures pbad hfail (selectToVectorize s.db false) s idx 0

/-- Witness for the amended C6 on `sW` under the working provider `pEx`. -/
theorem c6_backlog_sweep_witness :
    (∀ force pr, pr ∈ selectToVectorize sW.db force →
      pr.2 ≠ "" ∧ ∃ e, e ∈ sW.db.events ∧ e.id = pr.1 ∧ e.content = some pr.2 ∧
        (force = false → e.vectorized = false)) ∧
    ((vectorize_existing_events pEx sW ⟨1, []⟩ false).1.db.vectors.length
      = sW.db.vectors.length + (selectToVectorize sW.db false).length) ∧
    (selectToVectorize ((vectorize_existing_events pEx sW ⟨1, []⟩ false).1).db false = []) ∧
    (∀ pbad : Provider, (∀ t, ∃ msg, pbad.encode t = Except.error msg) →
      vectorize_existing_events pbad sW ⟨1, []⟩ false = (sW, ⟨1, []⟩, 0)) :=
  c6_backlog_sweep pEx sW ⟨1, []⟩
    (fun _ => ⟨[0], rfl⟩)
    (fun t v h => by
      injection h with h2
      rw [← h2]
      rfl)
    (by
      intro e he hv c hc hcne
      have he2 : e = ⟨1, 10, "ocr", some "hello", false, none⟩ := by
        simpa [sW] using he
      rw [he2] at hc
      injection hc with hc2
      rw [← hc2]
      decide)

/-- Helper: `markOne` never changes an event's id. -/
theorem markOne_id (i : Nat) (e : Event) : (markOne i e).id = e.id := by
  unfold markOne
  split
  · rfl
  · rfl

/-- Helper: `markOne` never clears the flag. -/
theorem markOne_flag_mono (i : Nat) (e : Event) (h : e.vectorized = true) :
    (markOne i e).vectorized = true := by
  unfold markOne
  split
  · rfl
  · exact h

/-- Helper: `markOne` sets the flag of the targeted event. -/
theorem markOne_flag_self (i : Nat) (e : Event) (h : e.id = i) :
    (markOne i e).vectorized = true := by
  unfold markOne
  rw [if_pos h]

/-- Helper: `vcount` over an appended row. -/
theorem vcount_eq_countP (db : DBState) (m : Nat) :
    vcount db m = db.vectors.countP (fun r => r.event_id == m) := rfl

/-- Helper: an event id referenced by no row has `vcount` zero. -/
theorem vcount_zero_of_fresh (db : DBState) (m : Nat)
    (h : ∀ r, r ∈ db.vectors → r.event_id ≠ m) : vcount db m = 0 := by
  rw [vcount_eq_countP]
  rw [List.countP_eq_zero]
  intro r hr
  simp only [beq_iff_eq]
  exact fun hx => h r hr hx

/-- Helper: the one-vector invariant survives appending a row for a
previously row-free event while marking that event. -/
theorem vinv_marked_append (db2 db : DBState) (eid : Nat) (row : VectorRow)
    (hev : db2.events = db.events.map (markOne eid))
    (hvec : db2.vectors = db.vectors ++ [row])
    (hrow : row.event_id = eid) (hinv : VInv db) (hfree : vcount db eid = 0) :
    VInv db2 := by
  obtain ⟨hone, hflag⟩ := hinv
  constructor
  · intro m
    rw [vcount_eq_countP, hvec, List.countP_append, List.countP_cons, List.countP_nil]
    by_cases hm : eid = m
    · have h0 : vcount db m = 0 := by
        rw [← hm]
        exact hfree
      rw [vcount_eq_countP] at h0
      rw [h0]
      simp only [Nat.zero_add]
      split <;> simp
    · have hpred : (row.event_id == m) = false := by
        rw [hrow]
        exact beq_eq_false_iff_ne.mpr hm
      rw [hpred]
      have := hone m
      rw [vcount_eq_countP] at this
      simpa using this
  · intro r hr e he hid
    rw [hvec] at hr
    rw [hev] at he
    rcases List.mem_map.mp he with ⟨e0, he0, hfe⟩
    rcases List.mem_append.mp hr with hra | hrb
    · have hid0 : e0.id = r.event_id := by
        rw [← hid, ← hfe, markOne_id]
      have := hflag r hra e0 he0 hid0
      rw [← hfe]
      exact markOne_flag_mono eid e0 this
    · rw [List.mem_singleton] at hrb
      have hide : e0.id = eid := by
        rw [← markOne_id eid e0, hfe, hid, hrb, hrow]
      rw [← hfe]
      exact markOne_flag_self eid e0 hide

/-- Helper: id well-formedness survives the same step. -/
theorem wfids_marked_append (db2 db : DBState) (eid : Nat) (row : VectorRow)
    (hev : db2.events = db.events.map (markOne eid))
    (hvec : db2.vectors = db.vectors ++ [row])
    (hnext : db2.nextEventId = db.nextEventId)
    (hrow : row.event_id < db.nextEventId)
    (hwf : WFIds db) : WFIds db2 := by
  obtain ⟨hnd, hbound, hrows⟩ := hwf
  refine ⟨?_, ?_, ?_⟩
  · rw [hev, List.map_map]
    have : ∀ e, e ∈ db.events → (Event.id ∘ markOne eid) e = e.id := by
      intro e he
      exact markOne_id eid e
    rw [List.map_congr_left this]
    exact hnd
  · intro e he
    rw [hev] at he
    rcases List.mem_map.mp he with ⟨e0, he0, hfe⟩
    rw [← hfe, markOne_id, hnext]
    exact hbound e0 he0
  · intro r hr
    rw [hvec] at hr
    rcases List.mem_append.mp hr with hra | hrb
    · rw [hnext]
      exact hrows r hra
    · rw [List.mem_singleton] at hrb
      rw [hrb, hnext]
      exact hrow

/-- Helper: the unforced/forced sweep fold preserves the one-vector
invariant and id well-formedness, as long as the provider's embeddings match
the index dimension, the selected ids are distinct, row-free and in range.
The index dimension is also preserved. -/
theorem sweep_foldl_inv (p : Provider) :
    ∀ (todo : List (Nat × String)) (s : SysState) (idx : FaissIndex) (n : Nat),
      DimOk p idx.dim →
      VInv s.db →
      WFIds s.db →
      (todo.map Prod.fst).Nodup →
      (∀ pr, pr ∈ todo → vcount s.db pr.1 = 0) →
      (∀ pr, pr ∈ todo → pr.1 < s.db.nextEventId) →
      VInv ((todo.foldl (sweepStep p) (s, idx, n)).1).db ∧
      WFIds ((todo.foldl (sweepStep p) (s, idx, n)).1).db ∧
      ((todo.foldl (sweepStep p) (s, idx, n)).2.1.dim = idx.dim) := by
  intro todo
  induction todo with
  | nil =>
    intro s idx n _ hinv hwf _ _ _
    exact ⟨hinv, hwf, rfl⟩
  | cons item todo ih =>
    intro s idx n hd hinv hwf hnd hfree hlt
    rw [List.map_cons, List.nodup_cons] at hnd
    obtain ⟨hndhead, hndtail⟩ := hnd
    rw [List.foldl_cons]
    obtain ⟨hst1, hst2⟩ := sweepStep_state p (s, idx, n) item
    rcases vas_state_cases p s idx item.1 item.2 hd with ⟨hs, hi⟩ | ⟨v, hvl, hs, hi⟩
    · rcases hstep : sweepStep p (s, idx, n) item with ⟨s1, idx1, n1⟩
      have h1 : s1 = s := by
        have hx := hst1.trans hs
        rw [hstep] at hx
        exact hx
      have h2 : idx1 = idx := by
        have hx := hst2.trans hi
        rw [hstep] at hx
        exact hx
      subst h1
      subst h2
      exact ih s1 idx1 n1 hd hinv hwf hndtail
        (fun pr hpr => hfree pr (List.mem_cons_of_mem _ hpr))
        (fun pr hpr => hlt pr (List.mem_cons_of_mem _ hpr))
    · rcases hstep : sweepStep p (s, idx, n) item with ⟨s1, idx1, n1⟩
      have h1 : s1 = ⟨⟨s.db.events.map (markOne item.1), s.db.nextEventId,
          s.db.vectors ++ [⟨s.db.nextVectorId, item.1, v, v.length⟩],
          s.db.nextVectorId + 1⟩, some ⟨idx.dim, idx.vecs ++ [v]⟩⟩ := by
        have hx := hst1.trans hs
        rw [hstep] at hx
        exact hx
      have h2 : idx1 = ⟨idx.dim, idx.vecs ++ [v]⟩ := by
        have hx := hst2.trans hi
        rw [hstep] at hx
        exact hx
      subst h1
      subst h2
      have hinv2 : VInv (⟨⟨s.db.events.map (markOne item.1), s.db.nextEventId,
          s.db.vectors ++ [⟨s.db.nextVectorId, item.1, v, v.length⟩],
          s.db.nextVectorId + 1⟩, some ⟨idx.dim, idx.vecs ++ [v]⟩⟩ : SysState).db :=
        vinv_marked_append _ s.db item.1 ⟨s.db.nextVectorId, item.1, v, v.length⟩
          rfl rfl rfl hinv (hfree item (List.mem_cons_self _ _))
      have hwf2 : WFIds (⟨⟨s.db.events.map (markOne item.1), s.db.nextEventId,
          s.db.vectors ++ [⟨s.db.nextVectorId, item.1, v, v.length⟩],
          s.db.nextVectorId + 1⟩, some ⟨idx.dim, idx.vecs ++ [v]⟩⟩ : SysState).db :=
        wfids_marked_append _ s.db item.1 ⟨s.db.nextVectorId, item.1, v, v.length⟩
          rfl rfl rfl (hlt item (List.mem_cons_self _ _)) hwf
      have hfree2 : ∀ pr, pr ∈ todo →
          vcount (⟨⟨s.db.events.map (markOne item.1), s.db.nextEventId,
            s.db.vectors ++ [⟨s.db.nextVectorId, item.1, v, v.length⟩],
            s.db.nextVectorId + 1⟩, some ⟨idx.dim, idx.vecs ++ [v]⟩⟩ : SysState).db pr.1
            = 0 := by
        intro pr hpr
        have hz := hfree pr (List.mem_cons_of_mem _ hpr)
        rw [vcount_eq_countP] at hz ⊢
        have hne : (item.1 == pr.1) = false := by
          rw [beq_eq_false_iff_ne]
          intro hx
          apply hndhead
          rw [hx]
          exact List.mem_map_of_mem Prod.fst hpr
        simp [List.countP_append, List.countP_cons, hz, hne]
      have hlt2 : ∀ pr, pr ∈ todo →
          pr.1 < (⟨⟨s.db.events.map (markOne item.1), s.db.nextEventId,
            s.db.vectors ++ [⟨s.db.nextVectorId, item.1, v, v.length⟩],
            s.db.nextVectorId + 1⟩, some ⟨idx.dim, idx.vecs ++ [v]⟩⟩ : SysState).db.nextEventId := by
        intro pr hpr
        exact hlt pr (List.mem_cons_of_mem _ hpr)
      have := ih ⟨⟨s.db.events.map (markOne item.1), s.db.nextEventId,
          s.db.vectors ++ [⟨s.db.nextVectorId, item.1, v, v.length⟩],
          s.db.nextVectorId + 1⟩, some ⟨idx.dim, idx.vecs ++ [v]⟩⟩
        ⟨idx.dim, idx.vecs ++ [v]⟩ n1 hd hinv2 hwf2 hndtail hfree2 hlt2
      exact ⟨this.1, this.2.1, this.2.2⟩

/-- Helper: inserting a fresh event preserves both invariants. -/
theorem inv_insertEventState (s : SysState) (ev : Event)
    (hid : ev.id = s.db.nextEventId) (hinv : VInv s.db) (hwf : WFIds s.db) :
    VInv (insertEventState s ev).db ∧ WFIds (insertEventState s ev).db := by
  obtain ⟨hone, hflag⟩ := hinv
  obtain ⟨hnd, hbound, hrows⟩ := hwf
  constructor
  · constructor
    · intro m
      exact hone m
    · intro r hr e he hide
      have he2 : e ∈ s.db.events ++ [ev] := he
      have hr2 : r ∈ s.db.vectors := hr
      rcases List.mem_append.mp he2 with hea | heb
      · exact hflag r hr2 e hea hide
      · rw [List.mem_singleton] at heb
        exfalso
        have h1 := hrows r hr2
        rw [← hide, heb, hid] at h1
        exact lt_irrefl _ h1
  · refine ⟨?_, ?_, ?_⟩
    · show ((s.db.events ++ [ev]).map (fun e => e.id)).Nodup
      rw [List.map_append, List.nodup_append]
      refine ⟨hnd, by simp, ?_⟩
      intro a ha hb
      simp only [List.map_cons, List.map_nil, List.mem_singleton] at hb
      rcases List.mem_map.mp ha with ⟨e0, he0, hfe⟩
      have hlt0 := hbound e0 he0
      rw [hfe, hb, hid] at hlt0
      exact lt_irrefl _ hlt0
    · intro e he
      have he2 : e ∈ s.db.events ++ [ev] := he
      show e.id < s.db.nextEventId + 1
      rcases List.mem_append.mp he2 with hea | heb
      · have := hbound e hea
        omega
      · rw [List.mem_singleton] at heb
        rw [heb, hid]
        omega
    · intro r hr
      have hr2 : r ∈ s.db.vectors := hr
      show r.event_id < s.db.nextEventId + 1
      have := hrows r hr2
      omega

/-- Helper: the selection's keys are distinct when event ids are. -/
theorem select_keys_nodup (db : DBState) (force : Bool)
    (h : (db.events.map (fun e => e.id)).Nodup) :
    ((selectToVectorize db force).map Prod.fst).Nodup := by
  unfold selectToVectorize
  rw [List.map_map]
  exact List.Nodup.sublist ((List.filter_sublist _).map _) h

/-- Claim C7: every event keeps at most one vector row, and the invariant —
with the id well-formedness it rests on — is preserved by both exposed
mutating operations other than a forced sweep: `store_event` with arbitrary
arguments, and the unforced backlog sweep (which selects only unvectorized,
hence row-free, events); so no sequence of those operations can give one
event a second row, and only the explicit forced path can re-vectorize. -/
theorem c7_one_vector_per_event (p : Provider) (s : SysState) (idx : FaissIndex)
    (hd : DimOk p idx.dim) (hinv : VInv s.db) (hwf : WFIds s.db) :
    (∀ ts st content vectorized mp auto,
      VInv (store_event p s idx ts st content vectorized mp auto).1.db ∧
      WFIds (store_event p s idx ts st content vectorized mp auto).1.db) ∧
    (VInv ((vectorize_existing_events p s idx false).1).db ∧
     WFIds ((vectorize_existing_events p s idx false).1).db) := by
  constructor
  · intro ts st content vectorized mp auto
    rw [store_event_eq]
    by_cases hc : (auto && pyTruthyContent content && !vectorized) = true
    · rw [if_pos hc]
      have hins := inv_insertEventState s ⟨s.db.nextEventId, ts, st, content, vectorized, mp⟩
        rfl hinv hwf
      cases content with
      | none =>
        exfalso
        simp [pyTruthyContent] at hc
      | some c =>
        rcases vas_state_cases p
          (insertEventState s ⟨s.db.nextEventId, ts, st, some c, vectorized, mp⟩) idx
          s.db.nextEventId c hd with ⟨hsx, _⟩ | ⟨v, hvl, hsx, _⟩
        · rw [hsx]
          exact hins
        · rw [hsx]
          have hfree1 : vcount (insertEventState s
              ⟨s.db.nextEventId, ts, st, some c, vectorized, mp⟩).db s.db.nextEventId = 0 := by
            apply vcount_zero_of_fresh
            intro r hr
            have hr2 : r ∈ s.db.vectors := hr
            exact Nat.ne_of_lt (hwf.2.2 r hr2)
          constructor
          · exact vinv_marked_append _
              (insertEventState s ⟨s.db.nextEventId, ts, st, some c, vectorized, mp⟩).db
              s.db.nextEventId ⟨s.db.nextVectorId, s.db.nextEventId, v, v.length⟩
              rfl rfl rfl hins.1 hfree1
          · exact wfids_marked_append _
              (insertEventState s ⟨s.db.nextEventId, ts, st, some c, vectorized, mp⟩).db
              s.db.nextEventId ⟨s.db.nextVectorId, s.db.nextEventId, v, v.length⟩
              rfl rfl rfl (Nat.lt_succ_self _) hins.2
    · rw [if_neg hc]
      exact inv_insertEventState s ⟨s.db.nextEventId, ts, st, content, vectorized, mp⟩
        rfl hinv hwf
  · have hfreesel : ∀ pr, pr ∈ selectToVectorize s.db false → vcount s.db pr.1 = 0 := by
      intro pr hpr
      rcases selectToVectorize_provenance s.db false pr hpr with ⟨_, e, he, hid, hce, hvf⟩
      apply vcount_zero_of_fresh
      intro r hr hx
      have hfl := hinv.2 r hr e he (by rw [hid, hx])
      have hff := hvf rfl
      rw [hff] at hfl
      exact Bool.noConfusion hfl
    have hltsel : ∀ pr, pr ∈ selectToVectorize s.db false → pr.1 < s.db.nextEventId := by
      intro pr hpr
      rcases selectToVectorize_provenance s.db false pr hpr with ⟨_, e, he, hid, _, _⟩
      rw [← hid]
      exact hwf.2.1 e he
    have := sweep_foldl_inv p (selectToVectorize s.db false) s idx 0 hd hinv hwf
      (select_keys_nodup s.db false hwf.1) hfreesel hltsel
    exact ⟨this.1, this.2.1⟩

/-- Witness for C7 on `sW` under the working provider `pEx`. -/
theorem c7_one_vector_per_event_witness :
    (VInv (store_event pEx sW ⟨1, []⟩ 99 "asr" (some "hi") false none true).1.db ∧
     WFIds (store_event pEx sW ⟨1, []⟩ 99 "asr" (some "hi") false none true).1.db) ∧
    (VInv ((vectorize_existing_events pEx sW ⟨1, []⟩ false).1).db ∧
     WFIds ((vectorize_existing_events pEx sW ⟨1, []⟩ false).1).db) := by
  have happ := c7_one_vector_per_event pEx sW ⟨1, []⟩
    (fun t v h => by
      injection h with h2
      rw [← h2]
      rfl)
    ⟨fun n => Nat.zero_le 1, fun r hr => absurd hr (List.not_mem_nil r)⟩
    ⟨by decide,
     fun e he => by
      have he2 : e = ⟨1, 10, "ocr", some "hello", false, none⟩ := by simpa [sW] using he
      rw [he2]
      decide,
     fun r hr => absurd hr (List.not_mem_nil r)⟩
  exact ⟨happ.1 99 "asr" (some "hi") false none true, happ.2⟩

/-- Witness for C1 at a concrete provider, state, expander and query. -/
theorem c1_fused_search_witness :
    (search_similar_events pEx sEx idxEx (fun _ => Except.ok ["hey"]) "hello" 2).length ≤ 2 ∧
    (search_similar_events pEx sEx idxEx (fun _ => Except.ok ["hey"]) "hello" 2).Pairwise
      (fun a b => a.similarity_score ≤ b.similarity_score) ∧
    ((search_similar_events pEx sEx idxEx (fun _ => Except.ok ["hey"]) "hello" 2).map
      (fun h => h.event_id)).Nodup ∧
    (∀ h, h ∈ search_similar_events pEx sEx idxEx (fun _ => Except.ok ["hey"]) "hello" 2 →
      h ∈ fusionHits pEx sEx idxEx (fun _ => Except.ok ["hey"]) "hello" 2 ∧
      (∀ h', h' ∈ fusionHits pEx sEx idxEx (fun _ => Except.ok ["hey"]) "hello" 2 →
        h'.event_id = h.event_id → h.similarity_score ≤ h'.similarity_score)) ∧
    ((search_similar_events pEx sEx idxEx (fun _ => Except.ok ["hey"]) "hello" 2).length < 2 →
      ∀ h', h' ∈ fusionHits pEx sEx idxEx (fun _ => Except.ok ["hey"]) "hello" 2 →
        ∃ h, h ∈ search_similar_events pEx sEx idxEx (fun _ => Except.ok ["hey"]) "hello" 2 ∧
          h.event_id = h'.event_id) :=
  c1_fused_search_is_min_reduction_sorted_truncated pEx sEx idxEx
    (fun _ => Except.ok ["hey"]) "hello" 2
